import Mathlib

/-!
Verification of the numerical core of `fSync.py` (camera-data extraction and
the rotation-matrix → Euler-angle converter), shallowly embedded over the
real numbers.  Floating-point values are modelled as real numbers; a second
model (`rotation_matrix_to_euler_zyx_np`) additionally tracks the numpy
NaN/Inf propagation with `Option ℝ` (`none` = not a finite real), since
the numpy `arcsin`, `arctan2`, `cos` and float division never raise on any
float input — out-of-domain arguments produce NaN (with a warning), not an
exception.
-/

open Real

noncomputable section

/-- A 3x3 real matrix, the rotation sub-matrix handed to
`rotation_matrix_to_euler_zyx` (entry `mij` is `matrix[i, j]` in the source). -/
structure Mat3 where
  m00 : ℝ
  m01 : ℝ
  m02 : ℝ
  m10 : ℝ
  m11 : ℝ
  m12 : ℝ
  m20 : ℝ
  m21 : ℝ
  m22 : ℝ

/-- Model of `np.arctan2 y x`: the argument of the complex number
`x + y·i`; range `(-π, π]`, and `arctan2 0 0 = 0`, matching numpy on
non-negative zeros. -/
def arctan2 (y x : ℝ) : ℝ := Complex.arg (Complex.mk x y)

/-- Model of `np.degrees`: radians to degrees, `x · (180 / π)`. -/
def degrees (x : ℝ) : ℝ := x * (180 / π)

/-- Model of `np.radians`: degrees to radians, `x · (π / 180)`. -/
def radians (x : ℝ) : ℝ := x * (π / 180)

/-- The intermediate `pitch = -np.arcsin(matrix[2, 0])` computed in the
regular (non-gimbal-lock) branch of `rotation_matrix_to_euler_zyx`. -/
def regPitch (M : Mat3) : ℝ := -arcsin M.m20

/-- Model of `FSyncFunc.rotation_matrix_to_euler_zyx` (fSync.py lines 444-460) over
real numbers.  Branch on `abs(matrix[2,0]) != 1`; the regular branch computes
`pitch = -arcsin(m20)` and two `arctan2` of entries divided by `cos(pitch)`;
the gimbal branch fixes `yaw = 0`, takes `pitch = ±π/2` and folds `yaw` into
`roll` exactly as the source does (`yaw + …` / `-yaw + …` with `yaw = 0`).
All three results pass through `np.degrees`, returned in the source order
`(roll, pitch, yaw)`. -/
def rotation_matrix_to_euler_zyx (M : Mat3) : ℝ × ℝ × ℝ :=
  if |M.m20| ≠ 1 then
    (degrees (arctan2 (M.m21 / cos (regPitch M)) (M.m22 / cos (regPitch M))),
     degrees (regPitch M),
     degrees (arctan2 (M.m10 / cos (regPitch M)) (M.m00 / cos (regPitch M))))
  else
    (degrees (if M.m20 = -1 then 0 + arctan2 M.m01 M.m02
              else -0 + arctan2 (-M.m01) (-M.m02)),
     degrees (if M.m20 = -1 then π / 2 else -(π / 2)),
     degrees 0)

/-- The 3x3 identity matrix (a concrete well-formed rotation). -/
def id3 : Mat3 := ⟨1, 0, 0, 0, 1, 0, 0, 0, 1⟩

lemma degrees_zero : degrees 0 = 0 := by simp [degrees]

lemma degrees_pi_div_two : degrees (π / 2) = 90 := by
  have hπ : (π : ℝ) ≠ 0 := pi_ne_zero
  field_simp [degrees]
  ring

lemma degrees_neg (x : ℝ) : degrees (-x) = -degrees x := by
  simp [degrees, neg_mul]

lemma degrees_le_degrees {x y : ℝ} (h : x ≤ y) : degrees x ≤ degrees y := by
  have h180 : (0:ℝ) ≤ 180 / π := by positivity
  exact mul_le_mul_of_nonneg_right h h180

lemma degrees_lt_degrees {x y : ℝ} (h : x < y) : degrees x < degrees y := by
  have h180 : (0:ℝ) < 180 / π := by positivity
  exact mul_lt_mul_of_pos_right h h180

lemma arctan2_zero_one : arctan2 0 1 = 0 := by
  have h : (Complex.mk 1 0) = (1 : ℂ) := by
    apply Complex.ext <;> simp
  rw [arctan2, h, Complex.arg_one]

lemma arctan2_sin_cos {φ : ℝ} (h : φ ∈ Set.Ioc (-π) π) :
    arctan2 (sin φ) (cos φ) = φ := by
  rw [arctan2, Complex.mk_eq_add_mul_I, Complex.ofReal_cos, Complex.ofReal_sin]
  exact Complex.arg_cos_add_sin_mul_I h

/-- C1: in the regular branch (`|R[2][0]| ≠ 1`) the converter returns exactly
`(roll, pitch, yaw)` in degrees with `pitch = -asin(R[2][0])` (hence pitch in
`[-90°, 90°]`), `roll = atan2(R[2][1]/cos pitch, R[2][2]/cos pitch)` and
`yaw = atan2(R[1][0]/cos pitch, R[0][0]/cos pitch)`. -/
theorem euler_zyx_regular_branch (M : Mat3) (h : |M.m20| ≠ 1) :
    rotation_matrix_to_euler_zyx M =
      (degrees (arctan2 (M.m21 / cos (-arcsin M.m20)) (M.m22 / cos (-arcsin M.m20))),
       degrees (-arcsin M.m20),
       degrees (arctan2 (M.m10 / cos (-arcsin M.m20)) (M.m00 / cos (-arcsin M.m20)))) ∧
    -90 ≤ degrees (-arcsin M.m20) ∧ degrees (-arcsin M.m20) ≤ 90 := by
  refine ⟨by rw [rotation_matrix_to_euler_zyx, if_pos h]; rfl, ?_, ?_⟩
  · have h1 : -(π / 2) ≤ -arcsin M.m20 := by
      have := arcsin_le_pi_div_two M.m20
      linarith
    calc (-90 : ℝ) = degrees (-(π / 2)) := by
          rw [degrees_neg, degrees_pi_div_two]
      _ ≤ degrees (-arcsin M.m20) := degrees_le_degrees h1
  · have h2 : -arcsin M.m20 ≤ π / 2 := by
      have := neg_pi_div_two_le_arcsin M.m20
      linarith
    calc degrees (-arcsin M.m20) ≤ degrees (π / 2) := degrees_le_degrees h2
      _ = 90 := degrees_pi_div_two

/-- Witness for C1: the identity matrix has `|R[2][0]| = 0 ≠ 1` and the
regular branch evaluates to `(0, 0, 0)`. -/
theorem euler_zyx_regular_branch_witness :
    rotation_matrix_to_euler_zyx id3 = (0, 0, 0) := by
  have h : |id3.m20| ≠ 1 := by norm_num [id3]
  have hmain := (euler_zyx_regular_branch id3 h).1
  rw [hmain]
  norm_num [id3, Real.arcsin_zero, arctan2_zero_one, degrees_zero]

/-- A concrete matrix at the `r20 = -1` gimbal-lock point
(`Rz(0)·Ry(π/2)·Rx(0)`, i.e. pitch = +90°). -/
def gimbalNeg : Mat3 := ⟨0, 0, 1, 0, 1, 0, -1, 0, 0⟩

/-- C2: at gimbal lock the converter fixes `yaw = 0`; for `R[2][0] = -1` it
returns `pitch = 90°` and `roll = atan2(R[0][1], R[0][2])` in degrees, and
for `R[2][0] = +1` it returns `pitch = -90°` and
`roll = atan2(-R[0][1], -R[0][2])` in degrees. -/
theorem euler_zyx_gimbal_branch (M : Mat3) :
    (M.m20 = -1 →
      rotation_matrix_to_euler_zyx M = (degrees (arctan2 M.m01 M.m02), 90, 0)) ∧
    (M.m20 = 1 →
      rotation_matrix_to_euler_zyx M = (degrees (arctan2 (-M.m01) (-M.m02)), -90, 0)) := by
  constructor
  · intro hm
    have habs : ¬(|M.m20| ≠ 1) := by rw [hm]; norm_num
    rw [rotation_matrix_to_euler_zyx, if_neg habs, if_pos hm, if_pos hm]
    rw [zero_add, degrees_pi_div_two, degrees_zero]
  · intro hm
    have hne : M.m20 ≠ -1 := by rw [hm]; norm_num
    have habs : ¬(|M.m20| ≠ 1) := by rw [hm]; norm_num
    rw [rotation_matrix_to_euler_zyx, if_neg habs, if_neg hne, if_neg hne]
    rw [neg_zero, zero_add, degrees_neg, degrees_pi_div_two, degrees_zero]

/-- Witness for C2: at the concrete matrix `Rz(0)·Ry(π/2)·Rx(0)`
(`R[2][0] = -1`) the converter returns `(0°, 90°, 0°)`. -/
theorem euler_zyx_gimbal_branch_witness :
    rotation_matrix_to_euler_zyx gimbalNeg = (0, 90, 0) := by
  have hm : gimbalNeg.m20 = -1 := by norm_num [gimbalNeg]
  have h := (euler_zyx_gimbal_branch gimbalNeg).1 hm
  rw [h]
  norm_num [gimbalNeg, arctan2_zero_one, degrees_zero]

/-- C10: in the regular branch, if additionally `|R[2][0]| ≤ 1`, the
intermediate `pitch = -asin(R[2][0])` lies strictly inside `(-π/2, π/2)`
(i.e. `(-90°, 90°)` in degrees), so `cos(pitch)` is strictly positive and in
particular nonzero — none of the four divisions by `cos(pitch)` divides by
zero. -/
theorem regPitch_strictly_inside (M : Mat3)
    (h1 : |M.m20| ≤ 1) (h2 : |M.m20| ≠ 1) :
    (-(π / 2) < regPitch M ∧ regPitch M < π / 2) ∧
    (-90 < degrees (regPitch M) ∧ degrees (regPitch M) < 90) ∧
    0 < cos (regPitch M) ∧ cos (regPitch M) ≠ 0 := by
  have hlt : |M.m20| < 1 := lt_of_le_of_ne h1 h2
  have hg : -1 < M.m20 := (abs_lt.mp hlt).1
  have hl : M.m20 < 1 := (abs_lt.mp hlt).2
  have ha1 : arcsin M.m20 < π / 2 := arcsin_lt_pi_div_two.mpr hl
  have ha2 : -(π / 2) < arcsin M.m20 := neg_pi_div_two_lt_arcsin.mpr hg
  have hp1 : -(π / 2) < regPitch M := by rw [regPitch]; linarith
  have hp2 : regPitch M < π / 2 := by rw [regPitch]; linarith
  have hcos : 0 < cos (regPitch M) := cos_pos_of_mem_Ioo ⟨hp1, hp2⟩
  refine ⟨⟨hp1, hp2⟩, ⟨?_, ?_⟩, hcos, ne_of_gt hcos⟩
  · have := degrees_lt_degrees hp1
    rwa [degrees_neg, degrees_pi_div_two] at this
  · have := degrees_lt_degrees hp2
    rwa [degrees_pi_div_two] at this

/-- Witness for C10: the identity matrix has `|R[2][0]| = 0`, pitch `0`
strictly inside, and `cos = 1 > 0`. -/
theorem regPitch_strictly_inside_witness :
    (-(π / 2) < regPitch id3 ∧ regPitch id3 < π / 2) ∧ 0 < cos (regPitch id3) := by
  have h1 : |id3.m20| ≤ 1 := by norm_num [id3]
  have h2 : |id3.m20| ≠ 1 := by norm_num [id3]
  have h := regPitch_strictly_inside id3 h1 h2
  exact ⟨h.1, h.2.2.1⟩

/-- Rotation about X by `a` radians (spec §8 round-trip construction). -/
def rotX (a : ℝ) : Mat3 := ⟨1, 0, 0, 0, cos a, -sin a, 0, sin a, cos a⟩

/-- Rotation about Y by `a` radians (spec §8 round-trip construction). -/
def rotY (a : ℝ) : Mat3 := ⟨cos a, 0, sin a, 0, 1, 0, -sin a, 0, cos a⟩

/-- Rotation about Z by `a` radians (spec §8 round-trip construction). -/
def rotZ (a : ℝ) : Mat3 := ⟨cos a, -sin a, 0, sin a, cos a, 0, 0, 0, 1⟩

/-- Product of two 3x3 matrices (row-by-column). -/
def mul3 (A B : Mat3) : Mat3 :=
  ⟨A.m00 * B.m00 + A.m01 * B.m10 + A.m02 * B.m20,
   A.m00 * B.m01 + A.m01 * B.m11 + A.m02 * B.m21,
   A.m00 * B.m02 + A.m01 * B.m12 + A.m02 * B.m22,
   A.m10 * B.m00 + A.m11 * B.m10 + A.m12 * B.m20,
   A.m10 * B.m01 + A.m11 * B.m11 + A.m12 * B.m21,
   A.m10 * B.m02 + A.m11 * B.m12 + A.m12 * B.m22,
   A.m20 * B.m00 + A.m21 * B.m10 + A.m22 * B.m20,
   A.m20 * B.m01 + A.m21 * B.m11 + A.m22 * B.m21,
   A.m20 * B.m02 + A.m21 * B.m12 + A.m22 * B.m22⟩

/-- The ZYX composition `Rz(yaw)·Ry(pitch)·Rx(roll)` of the spec. -/
def zyxMatrix (roll pitch yaw : ℝ) : Mat3 := mul3 (rotZ yaw) (mul3 (rotY pitch) (rotX roll))

lemma euler_zyx_id3 : rotation_matrix_to_euler_zyx id3 = (0, 0, 0) := by
  have h : |id3.m20| ≠ 1 := by norm_num [id3]
  rw [rotation_matrix_to_euler_zyx, if_pos h]
  norm_num [id3, regPitch, Real.arcsin_zero, arctan2_zero_one, degrees_zero]

/-- Counterexample for C3 as stated: the claim quantifies over every angle
triple with pitch strictly inside `(-90°, 90°)`, but for
`(roll, pitch, yaw) = (360°, 0°, 0°)` (roll `2π` rad) the constructed matrix
is the identity, and the converter returns roll `0°`, which is not within
`1e-6` degrees of the original `360°`. -/
theorem euler_round_trip_counterexample :
    (rotation_matrix_to_euler_zyx (zyxMatrix (2 * π) 0 0)).1 = 0 ∧
    ¬ |(rotation_matrix_to_euler_zyx (zyxMatrix (2 * π) 0 0)).1 - 360| ≤ 1 / 1000000 := by
  have hM : zyxMatrix (2 * π) 0 0 = id3 := by
    simp [zyxMatrix, mul3, rotX, rotY, rotZ, id3, Real.cos_two_pi, Real.sin_two_pi]
  rw [hM, euler_zyx_id3]
  norm_num

/-- C3 (amended): the round trip holds for pitch strictly inside
`(-90°, 90°)` provided roll and yaw lie in `(-180°, 180°]` (the range the
atan2 of the converter can return); it is then exact in the real model, and in
particular the identity matrix yields `(0, 0, 0)`.  Angles are in radians on
the input side and converted to degrees by the converter. -/
theorem euler_round_trip (roll pitch yaw : ℝ)
    (hp1 : -(π / 2) < pitch) (hp2 : pitch < π / 2)
    (hr : roll ∈ Set.Ioc (-π) π) (hy : yaw ∈ Set.Ioc (-π) π) :
    rotation_matrix_to_euler_zyx (zyxMatrix roll pitch yaw) =
      (degrees roll, degrees pitch, degrees yaw) := by
  set M := zyxMatrix roll pitch yaw with hMdef
  have hm20 : M.m20 = -sin pitch := by
    simp [hMdef, zyxMatrix, mul3, rotX, rotY, rotZ]
  have hm21 : M.m21 = cos pitch * sin roll := by
    simp [hMdef, zyxMatrix, mul3, rotX, rotY, rotZ]
  have hm22 : M.m22 = cos pitch * cos roll := by
    simp [hMdef, zyxMatrix, mul3, rotX, rotY, rotZ]
  have hm10 : M.m10 = sin yaw * cos pitch := by
    simp [hMdef, zyxMatrix, mul3, rotX, rotY, rotZ]
  have hm00 : M.m00 = cos yaw * cos pitch := by
    simp [hMdef, zyxMatrix, mul3, rotX, rotY, rotZ]
  have hcos : 0 < cos pitch := cos_pos_of_mem_Ioo ⟨hp1, hp2⟩
  have harc : arcsin (sin pitch) = pitch := arcsin_sin (le_of_lt hp1) (le_of_lt hp2)
  have hsin : |sin pitch| ≠ 1 := by
    intro habs
    rcases (abs_eq (by norm_num : (0:ℝ) ≤ 1)).mp habs with h1 | h1
    · rw [h1, arcsin_one] at harc
      linarith
    · rw [h1, arcsin_neg_one] at harc
      linarith
  have hbr : |M.m20| ≠ 1 := by
    rw [hm20, abs_neg]
    exact hsin
  have hpitch : regPitch M = pitch := by
    rw [regPitch, hm20, arcsin_neg, neg_neg, harc]
  rw [rotation_matrix_to_euler_zyx, if_pos hbr, hpitch, hm21, hm22, hm10, hm00]
  have hcne : cos pitch ≠ 0 := ne_of_gt hcos
  rw [mul_div_cancel_left₀ _ hcne, mul_div_cancel_left₀ _ hcne,
      mul_div_assoc, div_self hcne, mul_one, mul_div_assoc, div_self hcne, mul_one]
  rw [arctan2_sin_cos hr, arctan2_sin_cos hy]

/-- Witness for C3 (amended): at `(0, 0, 0)` all hypotheses hold and the
round trip returns `(0, 0, 0)` — the identity-matrix case. -/
theorem euler_round_trip_witness :
    rotation_matrix_to_euler_zyx (zyxMatrix 0 0 0) = (0, 0, 0) := by
  have hmem : (0 : ℝ) ∈ Set.Ioc (-π) π :=
    ⟨neg_lt_zero.mpr pi_pos, le_of_lt pi_pos⟩
  have h := euler_round_trip 0 0 0
    (neg_lt_zero.mpr (by positivity)) (by positivity) hmem hmem
  rw [h, degrees_zero]

/-- Model of `np.arcsin` on a finite float: a finite real for arguments in `[-1, 1]`,
NaN (here `none`) outside — numpy warns and yields NaN, it does not raise. -/
def npArcsin (x : ℝ) : Option ℝ := if |x| ≤ 1 then some (arcsin x) else none

/-- Float division `x / c`: NaN operands propagate, and division by zero
yields a non-finite result (numpy warns and yields ±Inf or NaN, it does not
raise); `none` stands for any non-finite value. -/
def npDiv (x : ℝ) (c : Option ℝ) : Option ℝ :=
  c.bind fun t => if t = 0 then none else some (x / t)

/-- Model of `np.arctan2` on floats: total on finite arguments, NaN operands
propagate. -/
def npAtan2 (a b : Option ℝ) : Option ℝ :=
  a.bind fun y => b.map fun x => arctan2 y x

/-- Model of `FSyncFunc.rotation_matrix_to_euler_zyx` again, now tracking the numpy
non-finite float results (`none` = NaN/Inf): `np.cos` of NaN is NaN, and
every step merely propagates non-finite values — no step raises. -/
def rotation_matrix_to_euler_zyx_np (M : Mat3) : Option ℝ × Option ℝ × Option ℝ :=
  if |M.m20| ≠ 1 then
    let pitch := Option.map (fun t => -t) (npArcsin M.m20)
    let c := Option.map cos pitch
    (Option.map degrees (npAtan2 (npDiv M.m21 c) (npDiv M.m22 c)),
     Option.map degrees pitch,
     Option.map degrees (npAtan2 (npDiv M.m10 c) (npDiv M.m00 c)))
  else
    (some (degrees (if M.m20 = -1 then 0 + arctan2 M.m01 M.m02
                    else -0 + arctan2 (-M.m01) (-M.m02))),
     some (degrees (if M.m20 = -1 then π / 2 else -(π / 2))),
     some (degrees 0))

/-- Determinant of `M` by cofactor expansion along the first row. -/
def det3 (M : Mat3) : ℝ :=
  M.m00 * (M.m11 * M.m22 - M.m12 * M.m21) -
    M.m01 * (M.m10 * M.m22 - M.m12 * M.m20) +
    M.m02 * (M.m10 * M.m21 - M.m11 * M.m20)

/-- Every entry of `M` lies in `[-1, 1]` (as in any orthonormal matrix). -/
def entriesBounded (M : Mat3) : Prop :=
  |M.m00| ≤ 1 ∧ |M.m01| ≤ 1 ∧ |M.m02| ≤ 1 ∧
  |M.m10| ≤ 1 ∧ |M.m11| ≤ 1 ∧ |M.m12| ≤ 1 ∧
  |M.m20| ≤ 1 ∧ |M.m21| ≤ 1 ∧ |M.m22| ≤ 1

/-- C6: on a well-formed orthonormal matrix (entries in `[-1, 1]`,
determinant `+1`) the converter — in either branch — completes without
raising and returns three finite angles (`isSome` in the NaN-tracking
model). -/
theorem euler_zyx_np_total (M : Mat3)
    (hb : entriesBounded M) (hdet : det3 M = 1) :
    (rotation_matrix_to_euler_zyx_np M).1.isSome = true ∧
    (rotation_matrix_to_euler_zyx_np M).2.1.isSome = true ∧
    (rotation_matrix_to_euler_zyx_np M).2.2.isSome = true := by
  obtain ⟨-, -, -, -, -, -, h20, -, -⟩ := hb
  rw [rotation_matrix_to_euler_zyx_np]
  by_cases hbr : |M.m20| ≠ 1
  · rw [if_pos hbr]
    have hlt : |M.m20| < 1 := lt_of_le_of_ne h20 hbr
    have hg : -1 < M.m20 := (abs_lt.mp hlt).1
    have hl : M.m20 < 1 := (abs_lt.mp hlt).2
    have hp1 : -(π / 2) < -arcsin M.m20 := by
      have := arcsin_lt_pi_div_two.mpr hl
      linarith
    have hp2 : -arcsin M.m20 < π / 2 := by
      have := neg_pi_div_two_lt_arcsin.mpr hg
      linarith
    have hcos : cos (-arcsin M.m20) ≠ 0 :=
      ne_of_gt (cos_pos_of_mem_Ioo ⟨hp1, hp2⟩)
    have hcos2 : cos (arcsin M.m20) ≠ 0 := by rwa [Real.cos_neg] at hcos
    simp [npArcsin, if_pos h20, npDiv, npAtan2, hcos, hcos2]
  · rw [if_neg hbr]
    simp

/-- Witness for C6: the identity matrix satisfies both hypotheses and the
converter returns three finite angles. -/
theorem euler_zyx_np_total_witness :
    (rotation_matrix_to_euler_zyx_np id3).1.isSome = true ∧
    (rotation_matrix_to_euler_zyx_np id3).2.1.isSome = true ∧
    (rotation_matrix_to_euler_zyx_np id3).2.2.isSome = true := by
  have hb : entriesBounded id3 := by norm_num [entriesBounded, id3]
  have hdet : det3 id3 = 1 := by norm_num [det3, id3]
  exact euler_zyx_np_total id3 hb hdet

/-- A matrix whose `[2][0]` entry is `2`, outside the domain of `asin`. -/
def badM : Mat3 := ⟨1, 0, 0, 0, 1, 0, 2, 0, 0⟩

/-- Counterexample for C9 as stated: for `R[2][0] = 2` (`|R[2][0]| > 1`) the
source does NOT raise — `np.arcsin` merely produces NaN (with a warning) and
the function returns a triple of NaN angles; here the NaN-tracking model
returns the value `(none, none, none)` rather than signalling any fault. -/
theorem euler_zyx_np_nan_counterexample :
    rotation_matrix_to_euler_zyx_np badM = (none, none, none) := by
  have hbr : |badM.m20| ≠ 1 := by norm_num [badM]
  have hdom : ¬ |badM.m20| ≤ 1 := by norm_num [badM]
  rw [rotation_matrix_to_euler_zyx_np, if_pos hbr]
  simp [npArcsin, if_neg hdom, npDiv, npAtan2, badM]

/-- C9 (amended): for every matrix with `|R[2][0]| > 1`, the converter
returns normally with all three angles NaN (`none` in the NaN-tracking
model); no math-domain fault is raised, since `np.arcsin` yields NaN rather
than raising. -/
theorem euler_zyx_np_nan (M : Mat3) (h : 1 < |M.m20|) :
    rotation_matrix_to_euler_zyx_np M = (none, none, none) := by
  have hbr : |M.m20| ≠ 1 := ne_of_gt h
  have hdom : ¬ |M.m20| ≤ 1 := not_le.mpr h
  rw [rotation_matrix_to_euler_zyx_np, if_pos hbr]
  simp [npArcsin, if_neg hdom, npDiv, npAtan2]

/-- A matrix whose `[2][0]` entry is `-2`, also outside the `asin` domain. -/
def badM2 : Mat3 := ⟨1, 0, 0, 0, 1, 0, -2, 0, 0⟩

/-- Witness for C9 (amended) at the concrete matrix with `R[2][0] = -2`. -/
theorem euler_zyx_np_nan_witness :
    rotation_matrix_to_euler_zyx_np badM2 = (none, none, none) := by
  have h : (1:ℝ) < |badM2.m20| := by norm_num [badM2]
  exact euler_zyx_np_nan badM2 h

/-- The `cameraTransform` sub-record; its `rows` key may be absent. -/
structure TransformRec where
  rows : Option (List (List ℝ))

/-- The JSON-like input record of `extract_data`; each required key may be
absent (`none`), matching Python dictionary access that raises `KeyError`
when the key is missing. -/
structure RawRecord where
  imageWidth : Option ℝ
  imageHeight : Option ℝ
  horizontalFieldOfView : Option ℝ
  cameraTransform : Option TransformRec

/-- The attributes of the `FSyncFunc` object that `extract_data` assigns,
plus `rest` abstracting every other attribute (`camera_name`, file paths,
UI back-reference, …) that the method never touches. -/
structure FSyncState (α : Type) where
  rest : α
  aspect_ratio : ℝ
  angle_of_view : ℝ
  focal_length : ℝ
  pos_x : ℝ
  pos_y : ℝ
  pos_z : ℝ
  euler_angles : ℝ × ℝ × ℝ

/-- The error kinds of the extractor: a missing key or a missing index
raises `KeyError`/`IndexError` in the source (the spec calls this
`MalformedRecord`), and `data["imageWidth"] / data["imageHeight"]` with a
zero `imageHeight` raises `ZeroDivisionError` (plain Python numbers divide
on line 436; spec section 7 calls this `DivisionByZero`). -/
inductive ExtractErr where
  | MalformedRecord
  | DivisionByZero

/-- Lookup of `rows[i][j]` as an optional value (`none` = `IndexError`). -/
def entry2 (rows : List (List ℝ)) (i j : ℕ) : Option ℝ :=
  (rows.get? i).bind fun r => r.get? j

/-- Model of `np.array([row[:3] for row in rows[:3]])` followed by 2-D indexing.  In
`extract_data` this runs only after `rows[0][3]`, `rows[1][3]`, `rows[2][3]`
all succeeded, so rows 0-2 each have ≥ 4 entries and every lookup below is
present; the `getD 0` default is unreachable there. -/
def rotOfRows (rows : List (List ℝ)) : Mat3 :=
  ⟨(entry2 rows 0 0).getD 0, (entry2 rows 0 1).getD 0, (entry2 rows 0 2).getD 0,
   (entry2 rows 1 0).getD 0, (entry2 rows 1 1).getD 0, (entry2 rows 1 2).getD 0,
   (entry2 rows 2 0).getD 0, (entry2 rows 2 1).getD 0, (entry2 rows 2 2).getD 0⟩

/-- Model of `FSyncFunc.extract_data` (fSync.py lines 430-442), line by line, acting
on the object state `s`.  A missing key or index raises, and dividing by a
zero `imageHeight` raises `ZeroDivisionError` before anything past line 436
runs; each raise propagates to the caller as `Except.error`, carrying the
state as already mutated by the lines that ran before the raising one,
matching the Python semantics (the right-hand side of each assignment is
evaluated before the attribute is written).  The success value is the fully
updated state. -/
def extract_data {α : Type} (s : FSyncState α) (data : RawRecord) :
    Except (ExtractErr × FSyncState α) (FSyncState α) :=
  match data.imageWidth, data.imageHeight with
  | some w, some h =>
    if h = 0 then Except.error (ExtractErr.DivisionByZero, s) else
    let s1 := { s with aspect_ratio := w / h }
    match data.horizontalFieldOfView with
    | some hfov =>
      let s2 := { s1 with angle_of_view := degrees hfov }
      let s3 := { s2 with
        focal_length := (24 * s2.aspect_ratio) / (2 * tan (radians s2.angle_of_view / 2)) }
      match data.cameraTransform with
      | some ct =>
        match ct.rows with
        | some rows =>
          match entry2 rows 0 3, entry2 rows 1 3, entry2 rows 2 3 with
          | some x, some y, some z =>
            let s4 := { s3 with pos_x := x, pos_y := y, pos_z := z }
            Except.ok { s4 with
              euler_angles := rotation_matrix_to_euler_zyx (rotOfRows rows) }
          | _, _, _ => Except.error (ExtractErr.MalformedRecord, s3)
        | none => Except.error (ExtractErr.MalformedRecord, s3)
      | none => Except.error (ExtractErr.MalformedRecord, s3)
    | none => Except.error (ExtractErr.MalformedRecord, s1)
  | _, _ => Except.error (ExtractErr.MalformedRecord, s)

/-- The success state of an extraction, if any. -/
def okPart {ε β : Type} : Except ε β → Option β
  | Except.ok b => some b
  | Except.error _ => none

/-- Whether an extraction succeeded. -/
def isOkE {ε β : Type} : Except ε β → Bool
  | Except.ok _ => true
  | Except.error _ => false

/-- The object state after the call, from either arm. -/
def restOf {α : Type} : Except (ExtractErr × FSyncState α) (FSyncState α) → FSyncState α
  | Except.ok t => t
  | Except.error (_, t) => t

/-- The derived camera parameters held in the state. -/
def derivedOf {α : Type} (t : FSyncState α) : ℝ × ℝ × ℝ × ℝ × ℝ × ℝ × (ℝ × ℝ × ℝ) :=
  (t.aspect_ratio, t.angle_of_view, t.focal_length, t.pos_x, t.pos_y, t.pos_z, t.euler_angles)

/-- The record accesses that `extract_data` actually performs all succeed:
the four keys are present and entries `rows[0][3]`, `rows[1][3]`,
`rows[2][3]` exist. -/
def keysPresent (d : RawRecord) : Prop :=
  match d.imageWidth, d.imageHeight, d.horizontalFieldOfView, d.cameraTransform with
  | some _, some _, some _, some ct =>
    match ct.rows with
    | some rows =>
      (entry2 rows 0 3).isSome = true ∧ (entry2 rows 1 3).isSome = true ∧
        (entry2 rows 2 3).isSome = true
    | none => False
  | _, _, _, _ => False

/-- Well-formed input: every access succeeds and the one division the source
performs on raw record values (line 436) has a nonzero denominator, so no
`ZeroDivisionError` is raised either. -/
def wellFormed (d : RawRecord) : Prop :=
  keysPresent d ∧ d.imageHeight ≠ some 0

lemma degrees_one_bound : |degrees 1 - 57.2958| < 5 / 100000 := by
  have hl := Real.pi_gt_d6
  have hu := Real.pi_lt_d6
  have hπ : (0:ℝ) < π := pi_pos
  have h1 : degrees 1 = 180 / π := by rw [degrees, one_mul]
  have hub : (180:ℝ) / π < 57.29585 := by
    have h2 : (180:ℝ) / π < 180 / 3.141592 :=
      div_lt_div_of_pos_left (by norm_num) (by norm_num) hl
    have h3 : (180:ℝ) / 3.141592 < 57.29585 := by norm_num
    linarith
  have hlb : (57.29575:ℝ) < 180 / π := by
    have h2 : (180:ℝ) / 3.141593 < 180 / π :=
      div_lt_div_of_pos_left (by norm_num) hπ hu
    have h3 : (57.29575:ℝ) < 180 / 3.141593 := by norm_num
    linarith
  rw [h1, abs_lt]
  constructor <;> linarith

/-- C4: on every well-formed record the extractor computes
`aspectRatio = imageWidth / imageHeight`,
`fieldOfViewDegrees = degrees(horizontalFieldOfView)` and
`focalLength35mm = (24·aspectRatio) / (2·tan(radians(fieldOfViewDegrees)/2))`;
moreover `1920/1080` and `degrees 1` round to `1.7778` and `57.2958` at 4
decimal places, so the `1920×1080`, `1 rad` record yields those values. -/
theorem extract_data_formulas {α : Type} (s : FSyncState α) (d : RawRecord)
    (hwf : wellFormed d) :
    (okPart (extract_data s d)).map
        (fun t => (t.aspect_ratio, t.angle_of_view, t.focal_length)) =
      some (d.imageWidth.getD 0 / d.imageHeight.getD 0,
            degrees (d.horizontalFieldOfView.getD 0),
            (24 * (d.imageWidth.getD 0 / d.imageHeight.getD 0)) /
              (2 * tan (radians (degrees (d.horizontalFieldOfView.getD 0)) / 2))) ∧
    |(1920 : ℝ) / 1080 - 1.7778| < 5 / 100000 ∧
    |degrees 1 - 57.2958| < 5 / 100000 := by
  refine ⟨?_, by rw [abs_lt]; constructor <;> norm_num, degrees_one_bound⟩
  obtain ⟨hkeys, hne⟩ := hwf
  rcases d with ⟨ow, oh, ofv, oct⟩
  rcases ow with - | w
  · exact hkeys.elim
  rcases oh with - | h
  · exact hkeys.elim
  have hh : h ≠ 0 := by
    intro h0
    exact hne (by rw [h0])
  rcases ofv with - | f
  · exact hkeys.elim
  rcases oct with - | ct
  · exact hkeys.elim
  rcases ct with ⟨orows⟩
  rcases orows with - | rows
  · exact hkeys.elim
  obtain ⟨h03, h13, h23⟩ := hkeys
  rcases Option.isSome_iff_exists.mp h03 with ⟨x, hx⟩
  rcases Option.isSome_iff_exists.mp h13 with ⟨y, hy⟩
  rcases Option.isSome_iff_exists.mp h23 with ⟨z, hz⟩
  simp [extract_data, okPart, hx, hy, hz, hh]

/-- C5: the position output of the extractor is exactly the translation column
`(rows[0][3], rows[1][3], rows[2][3])`, with no arithmetic applied. -/
theorem extract_data_position {α : Type} (s : FSyncState α) (d : RawRecord)
    (x y z : ℝ)
    (hwf : wellFormed d)
    (hx : (Option.bind d.cameraTransform TransformRec.rows).bind
            (fun rows => entry2 rows 0 3) = some x)
    (hy : (Option.bind d.cameraTransform TransformRec.rows).bind
            (fun rows => entry2 rows 1 3) = some y)
    (hz : (Option.bind d.cameraTransform TransformRec.rows).bind
            (fun rows => entry2 rows 2 3) = some z) :
    (okPart (extract_data s d)).map (fun t => (t.pos_x, t.pos_y, t.pos_z)) =
      some (x, y, z) := by
  obtain ⟨hkeys, hne⟩ := hwf
  rcases d with ⟨ow, oh, ofv, oct⟩
  rcases ow with - | w
  · exact hkeys.elim
  rcases oh with - | h
  · exact hkeys.elim
  have hh : h ≠ 0 := by
    intro h0
    exact hne (by rw [h0])
  rcases ofv with - | f
  · exact hkeys.elim
  rcases oct with - | ct
  · exact hkeys.elim
  rcases ct with ⟨orows⟩
  rcases orows with - | rows
  · exact hkeys.elim
  simp only [Option.bind_some, Option.some_bind] at hx hy hz
  simp [extract_data, okPart, hx, hy, hz, hh]

/-- A concrete well-formed record: 1920×1080, 1 rad horizontal FOV, identity
rotation, translation column `[5, -3, 10]`. -/
def rec1 : RawRecord :=
  ⟨some 1920, some 1080, some 1,
   some ⟨some [[1, 0, 0, 5], [0, 1, 0, -3], [0, 0, 1, 10], [0, 0, 0, 1]]⟩⟩

/-- A starting object state (all derived attributes zeroed). -/
def s0 : FSyncState Unit := ⟨(), 0, 0, 0, 0, 0, 0, (0, 0, 0)⟩

/-- Witness for C4: on `rec1` the extractor succeeds with
`aspectRatio = 1920/1080`, `fieldOfViewDegrees = degrees 1`, and the stated
focal-length expression, and both approximation bounds hold. -/
theorem extract_data_formulas_witness :
    (okPart (extract_data s0 rec1)).map
        (fun t => (t.aspect_ratio, t.angle_of_view, t.focal_length)) =
      some ((1920 : ℝ) / 1080, degrees 1,
            (24 * ((1920 : ℝ) / 1080)) / (2 * tan (radians (degrees 1) / 2))) ∧
    |(1920 : ℝ) / 1080 - 1.7778| < 5 / 100000 ∧
    |degrees 1 - 57.2958| < 5 / 100000 := by
  have hwf : wellFormed rec1 := by
    constructor
    · simp [keysPresent, rec1, entry2]
    · norm_num [rec1]
  have h := extract_data_formulas s0 rec1 hwf
  simpa [rec1] using h

/-- Witness for C5: on `rec1` (translation column `[5, -3, 10]`) the
position output of the extractor is exactly `(5, -3, 10)`. -/
theorem extract_data_position_witness :
    (okPart (extract_data s0 rec1)).map (fun t => (t.pos_x, t.pos_y, t.pos_z)) =
      some ((5 : ℝ), (-3 : ℝ), (10 : ℝ)) := by
  have hwf : wellFormed rec1 := by
    constructor
    · simp [keysPresent, rec1, entry2]
    · norm_num [rec1]
  refine extract_data_position s0 rec1 5 (-3) 10 hwf ?_ ?_ ?_
  · simp [rec1, entry2]
  · simp [rec1, entry2]
  · simp [rec1, entry2]

/-- A 3×4 transform: three rows of four entries — NOT the expected 4x4
shape, yet every access `extract_data` performs succeeds. -/
def rows37 : List (List ℝ) := [[1, 0, 0, 5], [0, 1, 0, -3], [0, 0, 1, 10]]

/-- A record whose transform has shape 3×4 instead of 4×4. -/
def rec37 : RawRecord := ⟨some 1920, some 1080, some 1, some ⟨some rows37⟩⟩

/-- Counterexample for C7 as stated: the claim requires an error whenever the
transform "does not have the expected 4x4 shape", but on a 3×4 transform
(`rows37.length = 3`, not 4) the extractor succeeds — the source only indexes
`rows[0..2][0..3]` and never checks the shape. -/
theorem extract_data_shape_counterexample :
    rows37.length = 3 ∧ isOkE (extract_data s0 rec37) = true := by
  constructor
  · rfl
  · norm_num [extract_data, isOkE, rec37, rows37, entry2, s0]

/-- C7 (amended): every failure is surfaced to the caller, never silently
defaulted, and the outcomes partition as the source does: extraction
succeeds exactly on well-formed records; a `MalformedRecord`-kind error
(`KeyError`/`IndexError`) is signalled exactly when a required key
(`imageWidth`, `imageHeight`, `horizontalFieldOfView`, `cameraTransform`,
`rows`) or one of the entries `rows[0][3]`, `rows[1][3]`, `rows[2][3]` is
missing — except that when both image keys are present with
`imageHeight = 0`, line 436 raises first and a `DivisionByZero`-kind error
is signalled instead.  Other deviations from the 4x4 shape (extra or
missing cells the source never indexes) are accepted without error. -/
theorem extract_data_error_iff {α : Type} (s : FSyncState α) (d : RawRecord) :
    (isOkE (extract_data s d) = true ↔ wellFormed d) ∧
    ((∃ t, extract_data s d = Except.error (ExtractErr.DivisionByZero, t)) ↔
      d.imageWidth.isSome = true ∧ d.imageHeight = some 0) ∧
    ((∃ t, extract_data s d = Except.error (ExtractErr.MalformedRecord, t)) ↔
      ¬ wellFormed d ∧ ¬ (d.imageWidth.isSome = true ∧ d.imageHeight = some 0)) := by
  rcases d with ⟨ow, oh, ofv, oct⟩
  rcases ow with - | w
  · simp [extract_data, isOkE, wellFormed, keysPresent]
  rcases oh with - | h
  · simp [extract_data, isOkE, wellFormed, keysPresent]
  by_cases hh : h = 0
  · subst hh
    simp [extract_data, isOkE, wellFormed, keysPresent]
  have hne : ¬ ((some h : Option ℝ) = some 0) := by
    simp [hh]
  rcases ofv with - | f
  · simp [extract_data, isOkE, wellFormed, keysPresent, hh, hne]
  rcases oct with - | ct
  · simp [extract_data, isOkE, wellFormed, keysPresent, hh, hne]
  rcases ct with ⟨orows⟩
  rcases orows with - | rows
  · simp [extract_data, isOkE, wellFormed, keysPresent, hh, hne]
  rcases hx : entry2 rows 0 3 with - | x
  · simp [extract_data, isOkE, wellFormed, keysPresent, hh, hne, hx]
  rcases hy : entry2 rows 1 3 with - | y
  · simp [extract_data, isOkE, wellFormed, keysPresent, hh, hne, hx, hy]
  rcases hz : entry2 rows 2 3 with - | z
  · simp [extract_data, isOkE, wellFormed, keysPresent, hh, hne, hx, hy, hz]
  simp [extract_data, isOkE, wellFormed, keysPresent, hh, hne, hx, hy, hz]

/-- C8: the extractor is a pure function of the record: it never touches any
object attribute other than the derived camera parameters (`rest` is
preserved on every path, including the error paths), and the derived
parameters it produces depend only on the record, not on the prior state. -/
theorem extract_data_pure {α : Type} (s t : FSyncState α) (d : RawRecord) :
    (restOf (extract_data s d)).rest = s.rest ∧
    (okPart (extract_data s d)).map derivedOf =
      (okPart (extract_data t d)).map derivedOf := by
  rcases d with ⟨ow, oh, ofv, oct⟩
  rcases ow with - | w
  · simp [extract_data, restOf, okPart]
  rcases oh with - | h
  · simp [extract_data, restOf, okPart]
  by_cases hh : h = 0
  · simp [extract_data, restOf, okPart, hh]
  rcases ofv with - | f
  · simp [extract_data, restOf, okPart, hh]
  rcases oct with - | ct
  · simp [extract_data, restOf, okPart, hh]
  rcases ct with ⟨orows⟩
  rcases orows with - | rows
  · simp [extract_data, restOf, okPart, hh]
  rcases hx : entry2 rows 0 3 with - | x
  · simp [extract_data, restOf, okPart, hh, hx]
  rcases hy : entry2 rows 1 3 with - | y
  · simp [extract_data, restOf, okPart, hh, hx, hy]
  rcases hz : entry2 rows 2 3 with - | z
  · simp [extract_data, restOf, okPart, hh, hx, hy, hz]
  simp [extract_data, restOf, okPart, derivedOf, hh, hx, hy, hz]

/-- A record with every required key absent. -/
def recBad : RawRecord := ⟨none, none, none, none⟩

/-- A record with every key present but a zero `imageHeight`. -/
def recZeroH : RawRecord :=
  ⟨some 1920, some 0, some 1,
   some ⟨some [[1, 0, 0, 5], [0, 1, 0, -3], [0, 0, 1, 10], [0, 0, 0, 1]]⟩⟩

/-- Witness for C7 (amended): on a record with all keys missing extraction
fails, and on a record with every key present but `imageHeight = 0` a
`DivisionByZero`-kind error is signalled — both by the characterization
applied at those concrete records. -/
theorem extract_data_error_iff_witness :
    isOkE (extract_data s0 recBad) = false ∧
    (∃ t, extract_data s0 recZeroH = Except.error (ExtractErr.DivisionByZero, t)) := by
  constructor
  · have hnwf : ¬ wellFormed recBad := by
      intro hwf
      exact (by simp [keysPresent, recBad] : ¬ keysPresent recBad) hwf.1
    have h1 := (extract_data_error_iff s0 recBad).1
    cases hb : isOkE (extract_data s0 recBad) with
    | false => rfl
    | true => exact absurd (h1.mp hb) hnwf
  · exact ((extract_data_error_iff s0 recZeroH).2.1).mpr (by simp [recZeroH])
